import Mathlib

/-!
Verification development for the forge session/continuation supervisor.

The definitions below are a shallow embedding of the program's core modules:

* the continuation engine (`electron/agents/continuation.ts`): a per-ptyId
  state machine driven by PTY output and a quiet timer;
* the supervisor (`electron/main.ts`): PTY session map, cleanup, sanitized
  spawn environment, the ensemble synthesis orchestrator, hidden one-shot
  Claude runs and the numeric clamps at the IPC boundary;
* the rule-based task router (`electron/agents/router.ts`);
* the memory search of the store (`electron/database/db.ts`).

JavaScript strings are modelled as Lean `String` (lists of characters),
`setTimeout`-based timers as a `timerSet` flag consumed by an explicit
timer-fire transition, and the single-threaded event loop as a sequence of
atomic transitions.  Regex tests of the fixed pattern arrays
`DONE_PATTERNS` / `IDLE_PROMPT_PATTERNS` are abstracted as boolean-valued
functions on the scanned text (`MatchOracles`), since every claim below
holds for an arbitrary outcome of those tests.
-/

namespace Forge

/-! ### Continuation engine (`electron/agents/continuation.ts`) -/

/-- Status values of `ContinuationState.status`. -/
inductive CStatus
  | running
  | paused
  | done
  | max_reached
  | cancelled
deriving DecidableEq, Repr

/-- In-memory continuation state for one `ptyId`, mirroring the
`ContinuationState` interface.  The `timer?` field is modelled by the
boolean `timerSet`: `true` iff a quiet-delay timeout is currently armed. -/
structure CState where
  ptyId : String
  goal : String
  maxIterations : Nat
  currentIteration : Nat
  status : CStatus
  requirePrompt : Bool
  quietDelayMs : Nat
  timerSet : Bool
  outputBuffer : String
deriving DecidableEq, Repr

/-- Observable effects of the engine: renderer events sent through
`webContents.send` (`iteration`, `doneEv`, `maxReachedEv`), the
`onContinue(ptyId)` callback that writes into the PTY, and the
`hooks.onCancelled` callback (which has no renderer counterpart). -/
inductive CEvent
  | iteration (ptyId : String) (iteration max : Nat)
  | doneEv (ptyId : String) (iterations : Nat)
  | maxReachedEv (ptyId : String) (iterations : Nat) (goal : String)
  | onContinueCall (ptyId : String)
  | onCancelledHook (ptyId : String)
deriving DecidableEq, Repr

/-- Events that are sent to the renderer window (`continuation:iteration`,
`continuation:done`, `continuation:maxReached`).  The `onContinue` write and
the `onCancelled` hook are not renderer events. -/
def isRendererEvent : CEvent → Bool
  | .iteration _ _ _ => true
  | .doneEv _ _ => true
  | .maxReachedEv _ _ _ => true
  | .onContinueCall _ => false
  | .onCancelledHook _ => false

/-- Terminal transitions of a continuation run: `done`, `max_reached` and
`cancelled` each emit exactly one of these as the state is destroyed. -/
def isTerminalEvent : CEvent → Bool
  | .doneEv _ _ => true
  | .maxReachedEv _ _ _ => true
  | .onCancelledHook _ => true
  | _ => false

def QUIET_DELAY_MS : Nat := 12000
def MAX_BUFFER_SIZE : Nat := 50000
def BUFFER_TRIM_TO : Nat := 20000

/-- Outcomes of the fixed regex arrays: `doneMatch b` stands for
`DONE_PATTERNS.some (p => p.test b)` and `promptMatch s` for
`IDLE_PROMPT_PATTERNS.some (p => p.test s)`. -/
structure MatchOracles where
  doneMatch : String → Bool
  promptMatch : String → Bool

/-- JavaScript `s.slice(-n)`: the last `n` characters of `s` (all of `s`
when it is shorter than `n`). -/
def jsSliceFromEnd (s : String) (n : Nat) : String :=
  String.mk (s.data.drop (s.data.length - n))

/-- The sliding view scanned for an idle prompt:
`state.outputBuffer.split('\n').slice(-5).join('\n')`. -/
def lastLines (buffer : String) : String :=
  let lines := buffer.splitOn "\n"
  String.intercalate "\n" (lines.drop (lines.length - 5))

/-- `stopContinuation(ptyId)`: clear the timer, set status `cancelled`,
fire `hooks.onCancelled`, delete the state from the map. -/
def stopContinuation : Option CState → Option CState × List CEvent
  | none => (none, [])
  | some st => (none, [CEvent.onCancelledHook st.ptyId])

/-- `scheduleCheck(state)`: arm the quiet timer iff the status is `running`. -/
def scheduleCheck (st : CState) : CState :=
  if st.status = .running then { st with timerSet := true } else st

/-- `runIteration(state)`: guard on status and destroyed window, then the
max-iterations guard (emit `maxReached`, delete state), else increment the
iteration, clear the buffer, emit `iteration`, invoke `onContinue`, and
re-arm the timer. -/
def runIteration (winDestroyed : Bool) (st : CState) : Option CState × List CEvent :=
  if st.status ≠ .running then (some st, [])
  else if winDestroyed then stopContinuation (some st)
  else if st.maxIterations ≤ st.currentIteration then
    (none, [CEvent.maxReachedEv st.ptyId st.currentIteration st.goal])
  else
    let st' := scheduleCheck { st with
      currentIteration := st.currentIteration + 1,
      outputBuffer := "" }
    (some st', [CEvent.iteration st.ptyId (st.currentIteration + 1) st.maxIterations,
                CEvent.onContinueCall st.ptyId])

/-- `checkAndContinue(state)`: destroyed window → stop; completion pattern →
emit `done` and delete; `requirePrompt` and no idle prompt in the last five
lines → reschedule silently; otherwise run an iteration. -/
def checkAndContinue (oc : MatchOracles) (winDestroyed : Bool) (st : CState) :
    Option CState × List CEvent :=
  if st.status ≠ .running then (some st, [])
  else if winDestroyed then stopContinuation (some st)
  else if oc.doneMatch st.outputBuffer then
    (none, [CEvent.doneEv st.ptyId st.currentIteration])
  else if st.requirePrompt && !(oc.promptMatch (lastLines st.outputBuffer)) then
    (some (scheduleCheck st), [])
  else
    runIteration winDestroyed st

/-- `onPtyData(ptyId, data)`: for a running state, append the chunk, trim
the buffer to its last `BUFFER_TRIM_TO` characters when it exceeds
`MAX_BUFFER_SIZE`, clear the quiet timer and re-arm it via `scheduleCheck`. -/
def onPtyData (data : String) : Option CState → Option CState × List CEvent
  | none => (none, [])
  | some st =>
    if st.status ≠ .running then (some st, [])
    else
      let buf := st.outputBuffer ++ data
      let buf' := if MAX_BUFFER_SIZE < buf.length then jsSliceFromEnd buf BUFFER_TRIM_TO else buf
      (some (scheduleCheck { st with outputBuffer := buf', timerSet := false }), [])

/-- The quiet timer fires: the `setTimeout` closure clears `state.timer`
and calls `checkAndContinue`.  A timer only fires when armed; the closure's
own status guard makes a stale fire on a deleted state a no-op, which the
`none` case reflects. -/
def timerFire (oc : MatchOracles) (winDestroyed : Bool) :
    Option CState → Option CState × List CEvent
  | none => (none, [])
  | some st =>
    if st.timerSet then checkAndContinue oc winDestroyed { st with timerSet := false }
    else (some st, [])

/-- `ContinuationStartOptions`. -/
structure ContinuationStartOptions where
  kickOff : Bool := false
  requirePrompt : Option Bool := none
  quietDelayMs : Option Nat := none
deriving DecidableEq, Repr

/-- `startContinuation`: stop any prior state for the id, seed a fresh
running state (quiet delay defaulted below 250), then either kick off one
iteration immediately or arm the timer. -/
def startContinuation (winDestroyed : Bool) (ptyId goal : String)
    (maxIterations : Nat) (options : ContinuationStartOptions)
    (cfg : Option CState) : Option CState × List CEvent :=
  let (_, evs) := stopContinuation cfg
  let st : CState := {
    ptyId := ptyId
    goal := goal
    maxIterations := maxIterations
    currentIteration := 0
    status := .running
    requirePrompt := options.requirePrompt.getD true
    quietDelayMs :=
      match options.quietDelayMs with
      | some q => if 250 ≤ q then q else QUIET_DELAY_MS
      | none => QUIET_DELAY_MS
    timerSet := false
    outputBuffer := "" }
  if options.kickOff then
    let (cfg', evs') := runIteration winDestroyed st
    (cfg', evs ++ evs')
  else
    (some (scheduleCheck st), evs)

/-- Inputs delivered to the engine for one `ptyId` by the event loop. -/
inductive CInput
  | start (winDestroyed : Bool) (goal : String) (maxIterations : Nat)
      (options : ContinuationStartOptions)
  | ptyData (data : String)
  | timerFireInput (winDestroyed : Bool)
  | stop
deriving DecidableEq, Repr

/-- One engine transition. -/
def step (oc : MatchOracles) (ptyId : String) :
    CInput → Option CState → Option CState × List CEvent
  | .start wd goal maxIts opts, cfg => startContinuation wd ptyId goal maxIts opts cfg
  | .ptyData data, cfg => onPtyData data cfg
  | .timerFireInput wd, cfg => timerFire oc wd cfg
  | .stop, cfg => stopContinuation cfg

/-- Run a list of inputs, accumulating the emitted events in order. -/
def run (oc : MatchOracles) (ptyId : String) :
    Option CState → List CInput → Option CState × List CEvent
  | cfg, [] => (cfg, [])
  | cfg, inp :: rest =>
    let (cfg', evs) := step oc ptyId inp cfg
    let (cfg'', evs') := run oc ptyId cfg' rest
    (cfg'', evs ++ evs')

/-! ### Trace shape of a single continuation run (C1 infrastructure) -/

/-- The expected event trace of `k` completed iterations:
`iteration(1), onContinue, iteration(2), onContinue, …, iteration(k), onContinue`. -/
def pairSeq (pid : String) (max k : Nat) : List CEvent :=
  (List.range' 1 k).flatMap
    (fun i => [CEvent.iteration pid i max, CEvent.onContinueCall pid])

/-- The `iteration` values carried by a trace, in emission order. -/
def iterationValues (tr : List CEvent) : List Nat :=
  tr.filterMap (fun e => match e with | .iteration _ i _ => some i | _ => none)

/-- Whether an input list contains a `start` command. -/
def hasStart : List CInput → Bool
  | [] => false
  | .start _ _ _ _ :: _ => true
  | _ :: rest => hasStart rest

theorem pairSeq_succ (pid : String) (M k : Nat) :
    pairSeq pid M (k + 1) =
      pairSeq pid M k ++ [CEvent.iteration pid (k + 1) M, CEvent.onContinueCall pid] := by
  unfold pairSeq
  rw [List.range'_concat, List.flatMap_append]
  simp [Nat.add_comm]

theorem iterationValues_append (a b : List CEvent) :
    iterationValues (a ++ b) = iterationValues a ++ iterationValues b := by
  unfold iterationValues
  rw [List.filterMap_append]

theorem iterationValues_pairSeq (pid : String) (M k : Nat) :
    iterationValues (pairSeq pid M k) = List.range' 1 k := by
  induction k with
  | zero => rfl
  | succ k ih =>
    rw [pairSeq_succ, iterationValues_append, ih, List.range'_concat]
    simp [iterationValues, Nat.add_comm]

theorem iterationValues_terminal (t : CEvent) (h : isTerminalEvent t = true) :
    iterationValues [t] = [] := by
  cases t <;> simp_all [isTerminalEvent, iterationValues]

/-- Invariant tying a configuration to the trace emitted so far: either the
state is live and running with the trace being exactly the iteration pairs
up to `currentIteration`, or the state is destroyed and the trace ends in a
single terminal event. -/
def TraceInv (pid : String) (M : Nat) : Option CState × List CEvent → Prop
  | (cfg, tr) =>
    (∃ st, cfg = some st ∧ st.status = .running ∧ st.ptyId = pid ∧
      st.maxIterations = M ∧ st.currentIteration ≤ M ∧
      tr = pairSeq pid M st.currentIteration)
    ∨ (cfg = none ∧ ∃ k t, k ≤ M ∧ isTerminalEvent t = true ∧
        tr = pairSeq pid M k ++ [t])

theorem step_preserves_traceInv (oc : MatchOracles) (pid : String) (M : Nat)
    (inp : CInput) (hns : ∀ wd g m o, inp ≠ .start wd g m o)
    (cfg : Option CState) (tr : List CEvent)
    (h : TraceInv pid M (cfg, tr)) :
    TraceInv pid M ((step oc pid inp cfg).1, tr ++ (step oc pid inp cfg).2) := by
  cases inp with
  | start wd g m o => exact absurd rfl (hns wd g m o)
  | ptyData data =>
    rcases h with ⟨st, hcfg, hrun, hpid, hmax, hle, htr⟩ | ⟨hcfg, k, t, hk, ht, htr⟩
    · subst hcfg
      simp only [step, onPtyData, hrun, ne_eq, not_true_eq_false, if_false, reduceIte,
        scheduleCheck, List.append_nil]
      left
      exact ⟨_, rfl, rfl, hpid, hmax, hle, htr⟩
    · subst hcfg
      simp only [step, onPtyData, List.append_nil]
      right
      exact ⟨rfl, k, t, hk, ht, htr⟩
  | timerFireInput wd =>
    rcases h with ⟨st, hcfg, hrun, hpid, hmax, hle, htr⟩ | ⟨hcfg, k, t, hk, ht, htr⟩
    · subst hcfg
      simp only [step, timerFire]
      by_cases htimer : st.timerSet
      · simp only [htimer, reduceIte]
        simp only [checkAndContinue, runIteration, stopContinuation, scheduleCheck, hrun,
          ne_eq, not_true_eq_false, if_false, reduceIte]
        by_cases hwd : wd
        · simp only [hwd, reduceIte]
          right
          exact ⟨rfl, st.currentIteration, CEvent.onCancelledHook st.ptyId, hle, rfl,
            by simp [htr, hpid]⟩
        · simp only [hwd, reduceIte]
          by_cases hdone : oc.doneMatch st.outputBuffer
          · simp only [hdone, reduceIte]
            right
            exact ⟨rfl, st.currentIteration, CEvent.doneEv st.ptyId st.currentIteration,
              hle, rfl, by simp [htr, hpid]⟩
          · simp only [hdone, Bool.false_eq_true, reduceIte]
            by_cases hprompt : st.requirePrompt && !(oc.promptMatch (lastLines st.outputBuffer))
            · simp only [hprompt, reduceIte]
              left
              exact ⟨_, rfl, rfl, hpid, hmax, hle, by simpa using htr⟩
            · simp only [hprompt, Bool.false_eq_true, reduceIte]
              by_cases hcap : st.maxIterations ≤ st.currentIteration
              · simp only [hcap, reduceIte]
                right
                exact ⟨rfl, st.currentIteration,
                  CEvent.maxReachedEv st.ptyId st.currentIteration st.goal, hle, rfl,
                  by simp [htr, hpid]⟩
              · simp only [hcap, reduceIte]
                left
                refine ⟨_, rfl, rfl, hpid, hmax, ?_, ?_⟩
                · show st.currentIteration + 1 ≤ M
                  omega
                · simp [htr, hpid, hmax, pairSeq_succ]
      · simp only [htimer, Bool.false_eq_true, reduceIte, List.append_nil]
        left
        exact ⟨st, rfl, hrun, hpid, hmax, hle, htr⟩
    · subst hcfg
      simp only [step, timerFire, List.append_nil]
      right
      exact ⟨rfl, k, t, hk, ht, htr⟩
  | stop =>
    rcases h with ⟨st, hcfg, hrun, hpid, hmax, hle, htr⟩ | ⟨hcfg, k, t, hk, ht, htr⟩
    · subst hcfg
      simp only [step, stopContinuation]
      right
      exact ⟨rfl, st.currentIteration, CEvent.onCancelledHook st.ptyId, hle, rfl,
        by simp [htr, hpid]⟩
    · subst hcfg
      simp only [step, stopContinuation, List.append_nil]
      right
      exact ⟨rfl, k, t, hk, ht, htr⟩

theorem run_preserves_traceInv (oc : MatchOracles) (pid : String) (M : Nat)
    (inputs : List CInput) (hns : hasStart inputs = false) :
    ∀ (cfg : Option CState) (tr : List CEvent), TraceInv pid M (cfg, tr) →
      TraceInv pid M ((run oc pid cfg inputs).1, tr ++ (run oc pid cfg inputs).2) := by
  induction inputs with
  | nil => intro cfg tr h; simpa [run] using h
  | cons inp rest ih =>
    intro cfg tr h
    have hinp : ∀ wd g m o, inp ≠ CInput.start wd g m o := by
      intro wd g m o heq
      subst heq
      simp [hasStart] at hns
    have hrest : hasStart rest = false := by
      cases inp <;> simp_all [hasStart]
    have h1 := step_preserves_traceInv oc pid M inp hinp cfg tr h
    have h2 := ih hrest (step oc pid inp cfg).1 (tr ++ (step oc pid inp cfg).2) h1
    simpa [run, List.append_assoc] using h2

theorem start_establishes_traceInv (pid : String) (wd : Bool) (goal : String)
    (M : Nat) (opts : ContinuationStartOptions) :
    TraceInv pid M (startContinuation wd pid goal M opts none) := by
  simp only [startContinuation, stopContinuation]
  by_cases hk : opts.kickOff
  · simp only [hk, reduceIte]
    simp only [runIteration, stopContinuation, scheduleCheck]
    by_cases hwd : wd
    · simp only [hwd, reduceIte]
      right
      exact ⟨rfl, 0, CEvent.onCancelledHook pid, Nat.zero_le M, rfl, by simp [pairSeq]⟩
    · simp only [hwd, reduceIte]
      by_cases hM : M ≤ 0
      · simp only [hM, reduceIte]
        right
        exact ⟨rfl, 0, CEvent.maxReachedEv pid 0 goal, Nat.zero_le M, rfl, by simp [pairSeq]⟩
      · simp only [hM, reduceIte]
        left
        refine ⟨_, rfl, ?_, ?_, ?_, ?_, ?_⟩
        · simp
        · simp
        · simp
        · show 0 + 1 ≤ M
          omega
        · simp [pairSeq_succ, pairSeq]
  · simp only [hk, Bool.false_eq_true, reduceIte]
    left
    refine ⟨_, rfl, ?_, ?_, ?_, ?_, ?_⟩ <;> simp [scheduleCheck, pairSeq]

theorem string_length_data (s : String) : s.length = s.data.length := rfl

theorem string_data_append (a b : String) : (a ++ b).data = a.data ++ b.data := by
  cases a
  cases b
  rfl

theorem string_length_append (a b : String) : (a ++ b).length = a.length + b.length := by
  rw [string_length_data (a ++ b), string_length_data a, string_length_data b,
    string_data_append, List.length_append]

/-- C1: for every continuation run on a given `ptyId` (a `start` followed by
any sequence of PTY-output deliveries, timer fires and stops, with no second
`start`), the emitted `iteration` values form the strictly increasing prefix
`1..k` of `1..maxIterations` for some `k ≤ maxIterations`; the trace is
exactly `iteration(1), onContinue, …, iteration(k), onContinue`, so each
`iteration(i)` event precedes its `onContinue(ptyId)` write; and at most one
terminal transition (`done`, `max_reached`, `cancelled`) occurs, as the very
last element of the trace, so no `iteration` event follows it. -/
theorem continuation_run_iteration_events (oc : MatchOracles) (pid goal : String)
    (wd : Bool) (M : Nat) (opts : ContinuationStartOptions) (rest : List CInput)
    (hrest : hasStart rest = false) :
    ∃ k, k ≤ M ∧
      iterationValues (run oc pid none (CInput.start wd goal M opts :: rest)).2 =
        List.range' 1 k ∧
      ((run oc pid none (CInput.start wd goal M opts :: rest)).2 = pairSeq pid M k ∨
        ∃ t, isTerminalEvent t = true ∧
          (run oc pid none (CInput.start wd goal M opts :: rest)).2 =
            pairSeq pid M k ++ [t]) := by
  have h0 : TraceInv pid M
      ((startContinuation wd pid goal M opts none).1,
        (startContinuation wd pid goal M opts none).2) :=
    start_establishes_traceInv pid wd goal M opts
  have hinv := run_preserves_traceInv oc pid M rest hrest
    (startContinuation wd pid goal M opts none).1
    (startContinuation wd pid goal M opts none).2 h0
  have heq : (run oc pid none (CInput.start wd goal M opts :: rest)).2 =
      (startContinuation wd pid goal M opts none).2 ++
        (run oc pid (startContinuation wd pid goal M opts none).1 rest).2 := by
    simp [run, step]
  rcases hinv with ⟨st, _, _, _, _, hle, htr⟩ | ⟨_, k, t, hk, ht, htr⟩
  · refine ⟨st.currentIteration, hle, ?_, Or.inl (heq.trans htr)⟩
    rw [heq.trans htr, iterationValues_pairSeq]
  · refine ⟨k, hk, ?_, Or.inr ⟨t, ht, heq.trans htr⟩⟩
    rw [heq.trans htr, iterationValues_append, iterationValues_pairSeq,
      iterationValues_terminal t ht, List.append_nil]

/-- A fixed oracle used by concrete witnesses: no completion match, prompt
always idle. -/
def constFalseOracles : MatchOracles where
  doneMatch := fun _ => false
  promptMatch := fun _ => true

/-- Witness: the C1 theorem applied to a concrete run of three inputs. -/
theorem continuation_run_iteration_events_witness :
    hasStart [CInput.ptyData "hello\n", CInput.timerFireInput false, CInput.stop] = false ∧
    ∃ k, k ≤ 3 ∧
      iterationValues (run constFalseOracles "pty_1" none
          (CInput.start false "fix the bug" 3 {} ::
            [CInput.ptyData "hello\n", CInput.timerFireInput false, CInput.stop])).2 =
        List.range' 1 k ∧
      ((run constFalseOracles "pty_1" none
          (CInput.start false "fix the bug" 3 {} ::
            [CInput.ptyData "hello\n", CInput.timerFireInput false, CInput.stop])).2 =
          pairSeq "pty_1" 3 k ∨
        ∃ t, isTerminalEvent t = true ∧
          (run constFalseOracles "pty_1" none
            (CInput.start false "fix the bug" 3 {} ::
              [CInput.ptyData "hello\n", CInput.timerFireInput false, CInput.stop])).2 =
            pairSeq "pty_1" 3 k ++ [t]) :=
  ⟨rfl, continuation_run_iteration_events constFalseOracles "pty_1" "fix the bug"
    false 3 {} [CInput.ptyData "hello\n", CInput.timerFireInput false, CInput.stop] rfl⟩

/-- C2: on a quiet-timer fire for a running state the checks apply in the
fixed source order: destroyed window → the continuation is stopped (state
deleted) and no renderer event is emitted; else a completion-pattern match →
`done` is emitted and the state deleted; else `requirePrompt` with no idle
prompt in the last output lines → the timer is re-armed with no event;
otherwise `runIteration` is invoked, and its first effective check is the
iteration cap, which emits `maxReached` and deletes the state. -/
theorem timer_fire_check_order (oc : MatchOracles) (wd : Bool) (st : CState)
    (hrun : st.status = .running) (htimer : st.timerSet = true) :
    (wd = true →
      (timerFire oc wd (some st)).1 = none ∧
      (timerFire oc wd (some st)).2.filter isRendererEvent = []) ∧
    (wd = false → oc.doneMatch st.outputBuffer = true →
      timerFire oc wd (some st) =
        (none, [CEvent.doneEv st.ptyId st.currentIteration])) ∧
    (wd = false → oc.doneMatch st.outputBuffer = false → st.requirePrompt = true →
      oc.promptMatch (lastLines st.outputBuffer) = false →
      timerFire oc wd (some st) = (some { st with timerSet := true }, [])) ∧
    (wd = false → oc.doneMatch st.outputBuffer = false →
      (st.requirePrompt = false ∨ oc.promptMatch (lastLines st.outputBuffer) = true) →
      timerFire oc wd (some st) = runIteration false { st with timerSet := false }) ∧
    (st.maxIterations ≤ st.currentIteration →
      runIteration false { st with timerSet := false } =
        (none, [CEvent.maxReachedEv st.ptyId st.currentIteration st.goal])) := by
  refine ⟨?_, ?_, ?_, ?_, ?_⟩
  · intro hwd
    subst hwd
    simp [timerFire, checkAndContinue, stopContinuation, htimer, hrun, isRendererEvent]
  · intro hwd hdone
    subst hwd
    simp [timerFire, checkAndContinue, htimer, hrun, hdone]
  · intro hwd hdone hreq hprompt
    subst hwd
    simp [timerFire, checkAndContinue, scheduleCheck, htimer, hrun, hdone, hreq, hprompt]
  · intro hwd hdone hor
    subst hwd
    rcases hor with hreq | hprompt
    · simp [timerFire, checkAndContinue, htimer, hrun, hdone, hreq]
    · simp [timerFire, checkAndContinue, htimer, hrun, hdone, hprompt]
  · intro hcap
    simp [runIteration, hrun, hcap]

/-- Concrete running state used by witnesses. -/
def cstateEx : CState where
  ptyId := "pty_1"
  goal := "fix the bug"
  maxIterations := 2
  currentIteration := 0
  status := .running
  requirePrompt := false
  quietDelayMs := 12000
  timerSet := true
  outputBuffer := "hello\n"

/-- Witness: the C2 theorem applied at a concrete state; with no completion
match and `requirePrompt = false` the timer fire reduces to `runIteration`. -/
theorem timer_fire_check_order_witness :
    timerFire constFalseOracles false (some cstateEx) =
      runIteration false { cstateEx with timerSet := false } :=
  (timer_fire_check_order constFalseOracles false cstateEx rfl rfl).2.2.2.1
    rfl rfl (Or.inl rfl)

/-- The buffer/timer contract of `onPtyData` on a running state (claim C3). -/
def OnPtyDataSpec (st : CState) (data : String) : Prop :=
  ∃ st', onPtyData data (some st) = (some st', []) ∧
    st'.timerSet = true ∧
    st'.quietDelayMs = st.quietDelayMs ∧
    st'.status = .running ∧
    st'.currentIteration = st.currentIteration ∧
    ((st.outputBuffer ++ data).length ≤ MAX_BUFFER_SIZE →
      st'.outputBuffer = st.outputBuffer ++ data) ∧
    (MAX_BUFFER_SIZE < (st.outputBuffer ++ data).length →
      st'.outputBuffer.length = BUFFER_TRIM_TO ∧
      st'.outputBuffer.data =
        (st.outputBuffer ++ data).data.drop
          ((st.outputBuffer ++ data).length - BUFFER_TRIM_TO)) ∧
    st'.outputBuffer.length ≤ MAX_BUFFER_SIZE

/-- C3: delivering a PTY output chunk to a running continuation state
appends the chunk to `outputBuffer`, trims the buffer to its last 20000
characters exactly when the appended buffer exceeds 50000 characters (hence
the buffer is at most 50000 characters after every delivery), emits no
event, and re-arms the quiet timer with the unchanged `quietDelayMs`. -/
theorem on_pty_data_spec (st : CState) (data : String)
    (hrun : st.status = .running) : OnPtyDataSpec st data := by
  unfold OnPtyDataSpec
  have htrim : BUFFER_TRIM_TO ≤ MAX_BUFFER_SIZE := by decide
  by_cases hbig : MAX_BUFFER_SIZE < (st.outputBuffer ++ data).length
  · have hbigS : MAX_BUFFER_SIZE < st.outputBuffer.length + data.length := by
      rw [← string_length_append]
      exact hbig
    have hL : MAX_BUFFER_SIZE < (st.outputBuffer ++ data).data.length := hbig
    have hlen : (jsSliceFromEnd (st.outputBuffer ++ data) BUFFER_TRIM_TO).length =
        BUFFER_TRIM_TO := by
      show ((st.outputBuffer ++ data).data.drop
        ((st.outputBuffer ++ data).data.length - BUFFER_TRIM_TO)).length = BUFFER_TRIM_TO
      rw [List.length_drop]
      omega
    refine ⟨{ st with
        outputBuffer := jsSliceFromEnd (st.outputBuffer ++ data) BUFFER_TRIM_TO,
        timerSet := true }, ?_, rfl, rfl, hrun, rfl, ?_, ?_, ?_⟩
    · simp [onPtyData, scheduleCheck, hrun, hbig, hbigS]
    · intro hsmall
      omega
    · intro _
      refine ⟨hlen, ?_⟩
      show (jsSliceFromEnd (st.outputBuffer ++ data) BUFFER_TRIM_TO).data =
        (st.outputBuffer ++ data).data.drop
          ((st.outputBuffer ++ data).length - BUFFER_TRIM_TO)
      rw [string_length_data]
      simp [jsSliceFromEnd]
    · show (jsSliceFromEnd (st.outputBuffer ++ data) BUFFER_TRIM_TO).length ≤ MAX_BUFFER_SIZE
      omega
  · have hsmallS : ¬ MAX_BUFFER_SIZE < st.outputBuffer.length + data.length := by
      rw [← string_length_append]
      exact hbig
    refine ⟨{ st with outputBuffer := st.outputBuffer ++ data, timerSet := true },
      ?_, rfl, rfl, hrun, rfl, ?_, ?_, ?_⟩
    · simp [onPtyData, scheduleCheck, hrun, hbig, hsmallS]
    · intro _
      rfl
    · intro hcontra
      omega
    · show (st.outputBuffer ++ data).length ≤ MAX_BUFFER_SIZE
      omega

/-- Witness: the C3 theorem applied at a concrete state and chunk. -/
theorem on_pty_data_spec_witness : OnPtyDataSpec cstateEx "world\n" :=
  on_pty_data_spec cstateEx "world\n" rfl

/-! ### Memory search (`electron/database/db.ts`) -/

/-- A row of `workspace_memories` as returned by the search statements. -/
structure MemoryRow where
  id : Nat
  key : String
  content : String
  category : String
  createdAt : String
deriving DecidableEq, Repr

/-- One global single-character `String.prototype.replace` pass:
every occurrence of `pattern` becomes `replacement`. -/
def jsReplaceAllChar (pattern : Char) (replacement : List Char) (l : List Char) :
    List Char :=
  l.flatMap (fun c => if c = pattern then replacement else [c])

/-- `escapeLike`: escape `\`, `%` and `_` (in that order of passes) so user
input is matched literally by `LIKE … ESCAPE '\'`. -/
def escapeLike (s : String) : String :=
  String.mk (jsReplaceAllChar '_' ['\\', '_']
    (jsReplaceAllChar '%' ['\\', '%']
      (jsReplaceAllChar '\\' ['\\', '\\'] s.data)))

/-- Scan for `needle` at each position of the haystack. -/
def includesFrom : List Char → List Char → Bool
  | needle, [] => needle.isEmpty
  | needle, c :: rest => needle.isPrefixOf (c :: rest) || includesFrom needle rest

/-- JavaScript `s.includes(sub)`. -/
def jsIncludes (s sub : String) : Bool :=
  includesFrom sub.data s.data

/-- The wildcarded pattern handed to both `LIKE` columns. -/
def likePattern (query : String) : String := "%" ++ escapeLike query ++ "%"

/-- Outcomes of the two prepared statements during one `searchMemory` call:
`ftsOutcome` is what `searchMemoryFts.all` (BM25-ordered, `LIMIT 10`)
produced — its rows, or the message of the error it threw; `likeRows` gives
the rows of `searchMemoryLike.all` (`LIMIT 10`) as a function of the LIKE
pattern both columns are matched against. -/
structure MemoryStoreOutcome where
  ftsOutcome : Except String (List MemoryRow)
  likeRows : String → List MemoryRow

/-- `searchMemory(workspaceId, query)`: try the BM25 FTS statement first and
return its rows when there are any; fall through to the escaped `LIKE`
statement when the FTS statement threw an `fts5: syntax error` — or when it
succeeded with zero rows; re-throw any other error. -/
def searchMemory (env : MemoryStoreOutcome) (query : String) :
    Except String (List MemoryRow) :=
  match env.ftsOutcome with
  | .ok ftsResults =>
    if 0 < ftsResults.length then .ok ftsResults
    else .ok (env.likeRows (likePattern query))
  | .error msg =>
    if jsIncludes msg "fts5: syntax error" then .ok (env.likeRows (likePattern query))
    else .error msg

/-- Modelled from the spec wording of C4 (for comparison only): fall back to
`LIKE` only when the FTS query raises an FTS syntax error, so a successful
FTS query returns its rows even when empty. -/
def searchMemorySpecOnlyOnError (env : MemoryStoreOutcome) (query : String) :
    Except String (List MemoryRow) :=
  match env.ftsOutcome with
  | .ok ftsResults => .ok ftsResults
  | .error msg =>
    if jsIncludes msg "fts5: syntax error" then .ok (env.likeRows (likePattern query))
    else .error msg

def memRow0 : MemoryRow where
  id := 1
  key := "k1"
  content := "hello world"
  category := "core"
  createdAt := "2024-01-01"

/-- A store state in which the FTS statement succeeds with zero rows while
the LIKE statement would find a row. -/
def memEnvEmptyFts : MemoryStoreOutcome where
  ftsOutcome := .ok []
  likeRows := fun _ => [memRow0]

/-- Counterexample to C4 as stated: when the FTS query SUCCEEDS but matches
no rows, `searchMemory` still falls back to the LIKE search (returning the
LIKE row), whereas falling back only on an FTS syntax error would return
the empty FTS result. -/
theorem searchMemory_empty_fts_counterexample :
    searchMemory memEnvEmptyFts "hello" = .ok [memRow0] ∧
    searchMemorySpecOnlyOnError memEnvEmptyFts "hello" = .ok [] ∧
    searchMemory memEnvEmptyFts "hello" ≠
      searchMemorySpecOnlyOnError memEnvEmptyFts "hello" := by
  refine ⟨rfl, rfl, ?_⟩
  intro h
  simp [searchMemory, searchMemorySpecOnlyOnError, memEnvEmptyFts] at h

/-- C4 (amended): `searchMemory` attempts the FTS query first and returns
its rows when nonempty; it falls back to the prefix/suffix wildcarded and
escaped LIKE search when the FTS query raises an FTS syntax error — or when
the FTS query succeeds with no rows; any other database error propagates. -/
theorem searchMemory_fts_fallback (env : MemoryStoreOutcome) (query : String) :
    (∀ rows, env.ftsOutcome = .ok rows → 0 < rows.length →
      searchMemory env query = .ok rows) ∧
    (∀ rows, env.ftsOutcome = .ok rows → rows.length = 0 →
      searchMemory env query = .ok (env.likeRows ("%" ++ escapeLike query ++ "%"))) ∧
    (∀ msg, env.ftsOutcome = .error msg →
      jsIncludes msg "fts5: syntax error" = true →
      searchMemory env query = .ok (env.likeRows ("%" ++ escapeLike query ++ "%"))) ∧
    (∀ msg, env.ftsOutcome = .error msg →
      jsIncludes msg "fts5: syntax error" = false →
      searchMemory env query = .error msg) := by
  refine ⟨?_, ?_, ?_, ?_⟩
  · intro rows hx h
    simp [searchMemory, hx, h]
  · intro rows hx h
    simp [searchMemory, likePattern, hx, h]
  · intro msg hx h
    simp [searchMemory, likePattern, hx, h]
  · intro msg hx h
    simp [searchMemory, hx, h]

/-- A store state whose FTS statement throws a non-syntax error. -/
def memEnvOtherError : MemoryStoreOutcome where
  ftsOutcome := .error "database is locked"
  likeRows := fun _ => [memRow0]

/-- Witness: a non-syntax database error propagates out of `searchMemory`. -/
theorem searchMemory_fts_fallback_witness :
    jsIncludes "database is locked" "fts5: syntax error" = false ∧
    searchMemory memEnvOtherError "hello" = .error "database is locked" :=
  ⟨by decide,
    (searchMemory_fts_fallback memEnvOtherError "hello").2.2.2 "database is locked"
      rfl (by decide)⟩

/-! ### Task router (`electron/agents/router.ts`) -/

inductive CLIType
  | claude
  | gemini
  | codex
  | copilot
  | qwen
  | llm
deriving DecidableEq, Repr

inductive TaskCategory
  | deep
  | code
  | visual
  | research
  | quick
  | git
  | local
deriving DecidableEq, Repr

def cliName : CLIType → String
  | .claude => "claude"
  | .gemini => "gemini"
  | .codex => "codex"
  | .copilot => "copilot"
  | .qwen => "qwen"
  | .llm => "llm"

def defaultCategoryForCli : CLIType → TaskCategory
  | .gemini => .visual
  | .codex => .code
  | .copilot => .git
  | .llm => .local
  | .qwen => .quick
  | .claude => .deep

structure RouteResult where
  cli : CLIType
  category : TaskCategory
  rationale : String
  confidence : ℚ
deriving DecidableEq, Repr

/-- JavaScript `\w`: ASCII letters, digits and underscore. -/
def isWordChar (c : Char) : Bool := c.isAlphanum || c = '_'

/-- A `\b` boundary holds before a word character iff the preceding
character (if any) is not a word character. -/
def boundaryOk : Option Char → Bool
  | none => true
  | some c => !isWordChar c

/-- A trailing `\b` holds iff the next character (if any) is not a word
character. -/
def endOk : List Char → Bool
  | [] => true
  | c :: _ => !isWordChar c

/-- Does the pattern match starting at the current position?  `prev` is the
character before the position. -/
def matchHere (lit : List Char) (endBound : Bool) (prev : Option Char)
    (s : List Char) : Bool :=
  boundaryOk prev && lit.isPrefixOf s && (!endBound || endOk (s.drop lit.length))

/-- Scan every position of the text for a match. -/
def testFrom (lit : List Char) (endBound : Bool) : Option Char → List Char → Bool
  | prev, [] => matchHere lit endBound prev []
  | prev, c :: rest =>
    matchHere lit endBound prev (c :: rest) || testFrom lit endBound (some c) rest

/-- A rule keyword: every pattern in `RULES` is a leading word boundary, a
lowercase literal, and an optional trailing word boundary, tested
case-insensitively.  The source weights are decimals with one fractional
digit (0.4 … 1.0); they are stored here exactly, scaled to integer tenths
(4 … 10), which preserves sums, comparisons and ratios. -/
structure KeywordPattern where
  lit : String
  endBound : Bool
  weightTenths : Nat

def mkKw (lit : String) (endBound : Bool) (weightTenths : Nat) : KeywordPattern :=
  { lit := lit, endBound := endBound, weightTenths := weightTenths }

/-- `pattern.test(description)`: the `/i` flag is modelled by lowercasing
the description (all rule literals are lowercase ASCII). -/
def testPattern (k : KeywordPattern) (description : String) : Bool :=
  testFrom k.lit.data k.endBound none (description.data.map Char.toLower)

structure WeightedRule where
  keywords : List KeywordPattern
  cli : CLIType
  category : TaskCategory
  rationale : String

/-- Rule 1: deep planning (weights 1.0, 0.8, 0.6, 0.8, 0.7, 0.9, 0.5, 0.5,
0.7, 0.9 in tenths). -/
def ruleDeepPlanning : WeightedRule :=
  { keywords := [mkKw "architect" false 10, mkKw "plan" true 8,
      mkKw "review" true 6, mkKw "analyze" false 8, mkKw "complex" false 7,
      mkKw "refactor" false 9, mkKw "why" true 5, mkKw "how does" true 5,
      mkKw "design system" false 7, mkKw "system design" false 9],
    cli := .claude, category := .deep,
    rationale := "Claude for deep planning and architecture analysis" }

/-- Rule 2: visual/frontend (note the shared term `design` at weight 0.4). -/
def ruleVisual : WeightedRule :=
  { keywords := [mkKw "frontend" false 10, mkKw "ui" true 9, mkKw "ux" true 9,
      mkKw "css" true 10, mkKw "html" true 7, mkKw "component" false 8,
      mkKw "react" true 7, mkKw "vue" true 7, mkKw "angular" true 7,
      mkKw "tailwind" false 9, mkKw "visual" false 8, mkKw "design" true 4,
      mkKw "layout" false 9, mkKw "style" false 8],
    cli := .gemini, category := .visual,
    rationale := "Gemini for visual/frontend specialization" }

/-- Rule 3: code generation. -/
def ruleCodeGen : WeightedRule :=
  { keywords := [mkKw "complete" false 7, mkKw "autocomplete" false 9,
      mkKw "boilerplate" false 9, mkKw "scaffold" false 8,
      mkKw "generate" true 6, mkKw "snippet" false 8, mkKw "quick fix" false 7],
    cli := .codex, category := .code,
    rationale := "Codex for rapid code generation and completion" }

/-- Rule 4: git workflows. -/
def ruleGit : WeightedRule :=
  { keywords := [mkKw "commit" false 10, mkKw "pr" true 9,
      mkKw "pull request" false 10, mkKw "github" false 9, mkKw "branch" false 8,
      mkKw "merge" false 8, mkKw "git" true 10, mkKw "review pr" false 10],
    cli := .copilot, category := .git,
    rationale := "Copilot for GitHub-integrated workflows" }

/-- Rule 5: local/private work. -/
def ruleLocal : WeightedRule :=
  { keywords := [mkKw "private" false 9, mkKw "local" true 8,
      mkKw "offline" false 10, mkKw "confidential" false 10,
      mkKw "sensitive" false 9, mkKw "no cloud" false 10],
    cli := .llm, category := .local,
    rationale := "Local LLM for private/offline work" }

/-- Rule 6: research/documentation. -/
def ruleResearch : WeightedRule :=
  { keywords := [mkKw "docs" true 8, mkKw "documentation" false 9,
      mkKw "search" true 5, mkKw "look up" false 7, mkKw "explain" false 8,
      mkKw "what is" false 7],
    cli := .claude, category := .research,
    rationale := "Claude for research and documentation lookup" }

/-- Rule 7: debugging, routed to deep. -/
def ruleDebug : WeightedRule :=
  { keywords := [mkKw "fix bug" false 10, mkKw "debug" false 10,
      mkKw "error" true 7, mkKw "crash" false 9, mkKw "traceback" false 9,
      mkKw "exception" false 8],
    cli := .claude, category := .deep,
    rationale := "Claude for debugging with extended reasoning" }

/-- Rule 8: tests, routed to code. -/
def ruleTestGen : WeightedRule :=
  { keywords := [mkKw "test" true 7, mkKw "unit test" false 10,
      mkKw "integration test" false 10, mkKw "spec" true 6, mkKw "jest" true 9,
      mkKw "vitest" true 9, mkKw "pytest" true 9],
    cli := .codex, category := .code,
    rationale := "Codex for test generation" }

def RULES : List WeightedRule :=
  [ruleDeepPlanning, ruleVisual, ruleCodeGen, ruleGit, ruleLocal, ruleResearch,
   ruleDebug, ruleTestGen]

/-- The sum (in tenths) of the weights of the rule keywords that match. -/
def ruleMatchedWeight (rule : WeightedRule) (description : String) : Nat :=
  rule.keywords.foldl
    (fun acc k => if testPattern k description then acc + k.weightTenths else acc) 0

/-- The sum (in tenths) of all the rule's keyword weights. -/
def ruleTotalWeight (rule : WeightedRule) : Nat :=
  rule.keywords.foldl (fun acc k => acc + k.weightTenths) 0

/-- The `RouteResult` built for a winning rule: confidence is the matched
weight divided by the total weight (the tenths scaling cancels) and capped
at 1. -/
def routeResultOfRule (rule : WeightedRule) (description : String) : RouteResult :=
  { cli := rule.cli, category := rule.category, rationale := rule.rationale,
    confidence :=
      min ((ruleMatchedWeight rule description : ℚ) / (ruleTotalWeight rule : ℚ)) 1 }

/-- One step of the rule loop: update the best match when this rule matched
something and its absolute matched weight strictly exceeds the best score. -/
def routeStep (description : String) (acc : Option RouteResult × Nat)
    (rule : WeightedRule) : Option RouteResult × Nat :=
  let matched := ruleMatchedWeight rule description
  if 0 < matched then
    if acc.2 < matched then (some (routeResultOfRule rule description), matched)
    else acc
  else acc

/-- `routeTask(description, preferredCli)`. -/
def routeTask (description : String) (preferredCli : Option CLIType) : RouteResult :=
  match preferredCli with
  | some cli =>
    { cli := cli, category := defaultCategoryForCli cli,
      rationale := "Manual override: using " ++ cliName cli, confidence := 1 }
  | none =>
    let res := RULES.foldl (routeStep description) (none, 0)
    res.1.getD
      { cli := .claude, category := .deep,
        rationale := "Claude as default general-purpose agent", confidence := 1 / 2 }

theorem routeStep_fold_spec (description : String) (l : List WeightedRule) :
    ∀ (b₀ : Option RouteResult) (s₀ : Nat),
    (l.foldl (routeStep description) (b₀, s₀) = (b₀, s₀) ∧
       ∀ r ∈ l, ruleMatchedWeight r description ≤ s₀) ∨
    (∃ l₁ rule l₂, l = l₁ ++ rule :: l₂ ∧
       s₀ < ruleMatchedWeight rule description ∧
       (∀ r ∈ l₁, ruleMatchedWeight r description < ruleMatchedWeight rule description) ∧
       (∀ r ∈ l₂, ruleMatchedWeight r description ≤ ruleMatchedWeight rule description) ∧
       l.foldl (routeStep description) (b₀, s₀) =
         (some (routeResultOfRule rule description),
          ruleMatchedWeight rule description)) := by
  induction l with
  | nil =>
    intro b₀ s₀
    left
    exact ⟨rfl, by simp⟩
  | cons r t ih =>
    intro b₀ s₀
    by_cases hup : s₀ < ruleMatchedWeight r description
    · have h0r : 0 < ruleMatchedWeight r description :=
        lt_of_le_of_lt (Nat.zero_le s₀) hup
      have hstep : routeStep description (b₀, s₀) r =
          (some (routeResultOfRule r description), ruleMatchedWeight r description) := by
        simp [routeStep, h0r, hup]
      have hfold : (r :: t).foldl (routeStep description) (b₀, s₀) =
          t.foldl (routeStep description)
            (some (routeResultOfRule r description), ruleMatchedWeight r description) := by
        simp [List.foldl_cons, hstep]
      rcases ih (some (routeResultOfRule r description))
          (ruleMatchedWeight r description) with ⟨heq, hall⟩ | h
      · right
        exact ⟨[], r, t, rfl, hup, by simp, hall, by rw [hfold, heq]⟩
      · rcases h with ⟨t₁, rule, t₂, ht, hgt, h₁, h₂, heq⟩
        right
        refine ⟨r :: t₁, rule, t₂, by rw [ht]; rfl, lt_trans hup hgt, ?_, h₂,
          by rw [hfold, heq]⟩
        intro r' hr'
        rcases List.mem_cons.mp hr' with hr' | hr'
        · rw [hr']
          exact hgt
        · exact h₁ r' hr'
    · have hstep : routeStep description (b₀, s₀) r = (b₀, s₀) := by
        by_cases h0r : 0 < ruleMatchedWeight r description
        · simp [routeStep, h0r, hup]
        · simp [routeStep, h0r]
      have hfold : (r :: t).foldl (routeStep description) (b₀, s₀) =
          t.foldl (routeStep description) (b₀, s₀) := by
        simp [List.foldl_cons, hstep]
      rcases ih b₀ s₀ with ⟨heq, hall⟩ | h
      · left
        refine ⟨by rw [hfold, heq], ?_⟩
        intro r' hr'
        rcases List.mem_cons.mp hr' with hr' | hr'
        · rw [hr']
          exact le_of_not_lt hup
        · exact hall r' hr'
      · rcases h with ⟨t₁, rule, t₂, ht, hgt, h₁, h₂, heq⟩
        right
        refine ⟨r :: t₁, rule, t₂, by rw [ht]; rfl, hgt, ?_, h₂, by rw [hfold, heq]⟩
        intro r' hr'
        rcases List.mem_cons.mp hr' with hr' | hr'
        · rw [hr']
          exact lt_of_le_of_lt (le_of_not_lt hup) hgt
        · exact h₁ r' hr'

/-- C5: with no preferred CLI, `routeTask` returns the rule of greatest
total matched keyword weight (ties broken in favor of the earlier rule: all
earlier rules score strictly less, all later ones at most as much), with
confidence `matchedWeight / totalWeight` capped at 1; and concretely
`routeTask "design the card layout"` picks the visual/gemini rule, whose
matched weight 1.3 = layout (0.9) + design (0.4) beats every other rule,
with confidence 1.3 / 11.2 = 13/112. -/
theorem routeTask_max_weight_rule :
    (∀ description : String,
      (∃ r ∈ RULES, 0 < ruleMatchedWeight r description) →
      ∃ l₁ rule l₂, RULES = l₁ ++ rule :: l₂ ∧
        routeTask description none = routeResultOfRule rule description ∧
        (routeTask description none).confidence =
          min ((ruleMatchedWeight rule description : ℚ) /
            (ruleTotalWeight rule : ℚ)) 1 ∧
        0 < ruleMatchedWeight rule description ∧
        (∀ r ∈ l₁, ruleMatchedWeight r description < ruleMatchedWeight rule description) ∧
        (∀ r ∈ l₂,
          ruleMatchedWeight r description ≤ ruleMatchedWeight rule description)) ∧
    routeTask "design the card layout" none =
      { cli := .gemini, category := .visual,
        rationale := "Gemini for visual/frontend specialization",
        confidence := 13 / 112 } := by
  constructor
  · intro description hex
    rcases routeStep_fold_spec description RULES none 0 with ⟨_, hall⟩ | h
    · rcases hex with ⟨r, hr, hpos⟩
      exact absurd hpos (not_lt_of_le (hall r hr))
    · rcases h with ⟨l₁, rule, l₂, ht, hgt, h₁, h₂, heq⟩
      have hroute : routeTask description none = routeResultOfRule rule description := by
        simp [routeTask, heq]
      exact ⟨l₁, rule, l₂, ht, hroute, by rw [hroute]; rfl, hgt, h₁, h₂⟩
  · have h1 : routeTask "design the card layout" none =
        routeResultOfRule ruleVisual "design the card layout" := rfl
    have hm : ruleMatchedWeight ruleVisual "design the card layout" = 13 := by decide
    have ht : ruleTotalWeight ruleVisual = 112 := by decide
    rw [h1]
    simp only [routeResultOfRule, RouteResult.mk.injEq, hm, ht]
    refine ⟨rfl, rfl, rfl, ?_⟩
    have hcast : ((13 : Nat) : ℚ) / ((112 : Nat) : ℚ) = 13 / 112 := by norm_num
    rw [hcast]
    exact min_eq_left (by norm_num)

/-- Witness: the general part of the C5 theorem applied at the concrete
description of the claim's scenario. -/
theorem routeTask_max_weight_rule_witness :
    (∃ r ∈ RULES, 0 < ruleMatchedWeight r "design the card layout") ∧
    ∃ l₁ rule l₂, RULES = l₁ ++ rule :: l₂ ∧
      routeTask "design the card layout" none =
        routeResultOfRule rule "design the card layout" ∧
      (routeTask "design the card layout" none).confidence =
        min ((ruleMatchedWeight rule "design the card layout" : ℚ) /
          (ruleTotalWeight rule : ℚ)) 1 ∧
      0 < ruleMatchedWeight rule "design the card layout" ∧
      (∀ r ∈ l₁, ruleMatchedWeight r "design the card layout" <
        ruleMatchedWeight rule "design the card layout") ∧
      (∀ r ∈ l₂, ruleMatchedWeight r "design the card layout" ≤
        ruleMatchedWeight rule "design the card layout") :=
  ⟨by decide,
    routeTask_max_weight_rule.1 "design the card layout" (by decide)⟩

/-! ### Sanitized PTY spawn environment (`electron/main.ts`) -/

/-- `ENV_ALLOWLIST`: the only parent-environment variables an interactive
PTY child may inherit. -/
def ENV_ALLOWLIST : List String := [
  "PATH", "HOME", "USER", "LOGNAME", "SHELL", "LANG", "LC_ALL", "LC_CTYPE",
  "TERM", "COLORTERM", "DISPLAY", "WAYLAND_DISPLAY", "XDG_RUNTIME_DIR",
  "XDG_DATA_HOME", "XDG_CONFIG_HOME", "XDG_CACHE_HOME",
  "WSLENV", "WSL_DISTRO_NAME", "WSL_INTEROP",
  "SYSTEMROOT", "SYSTEMDRIVE", "WINDIR", "APPDATA", "LOCALAPPDATA",
  "PROGRAMFILES", "PROGRAMFILES(X86)", "COMMONPROGRAMFILES",
  "TEMP", "TMP", "USERPROFILE", "HOMEDRIVE", "HOMEPATH",
  "NUMBER_OF_PROCESSORS", "PROCESSOR_ARCHITECTURE", "OS",
  "COMSPEC", "PSModulePath"]

/-- JavaScript truthiness of `process.env[key]`: defined and nonempty. -/
def envTruthy : Option String → Bool
  | none => false
  | some v => v != ""

/-- Record lookup `m[k]` on a modelled string-keyed object. -/
def lookupList {α : Type} : List (String × α) → String → Option α
  | [], _ => none
  | p :: t, k => if p.1 = k then some p.2 else lookupList t k

/-- Drop every binding of key `k`. -/
def removeKeyList {α : Type} (k : String) : List (String × α) → List (String × α)
  | [] => []
  | p :: t => if p.1 = k then removeKeyList k t else p :: removeKeyList k t

/-- Record assignment `env[k] = v`.  The JS object is observed only through
key lookup and key membership, so replacing the binding is faithful. -/
def setKey (env : List (String × String)) (k v : String) : List (String × String) :=
  removeKeyList k env ++ [(k, v)]

/-- The body of the `for (const key of ENV_ALLOWLIST)` copy loop:
`if (process.env[key]) env[key] = process.env[key]`. -/
def envCopyEntry (parent : String → Option String) (key : String) :
    Option (String × String) :=
  match parent key with
  | some v => if v != "" then some (key, v) else none
  | none => none

/-- The value the copy loop stores for `key`, when any. -/
def truthyValue (parent : String → Option String) (key : String) : Option String :=
  match parent key with
  | some v => if v != "" then some v else none
  | none => none

/-- `getSanitizedEnv()`: copy the truthy allow-listed parent variables,
force `TERM` and `COLORTERM`, and default `LANG` when absent or empty. -/
def getSanitizedEnv (parent : String → Option String) : List (String × String) :=
  let env := ENV_ALLOWLIST.filterMap (envCopyEntry parent)
  let env := setKey env "TERM" "xterm-256color"
  let env := setKey env "COLORTERM" "truecolor"
  let env := setKey env "LANG"
    (match lookupList env "LANG" with
     | some v => if v != "" then v else "en_US.UTF-8"
     | none => "en_US.UTF-8")
  env

theorem lookupList_append {α : Type} (l₁ l₂ : List (String × α)) (k : String) :
    lookupList (l₁ ++ l₂) k =
      match lookupList l₁ k with
      | some v => some v
      | none => lookupList l₂ k := by
  induction l₁ with
  | nil => simp [lookupList]
  | cons p t ih =>
    by_cases h : p.1 = k
    · simp [lookupList, h]
    · simpa [lookupList, h] using ih

theorem lookupList_removeKeyList_self {α : Type} (k : String)
    (m : List (String × α)) : lookupList (removeKeyList k m) k = none := by
  induction m with
  | nil => rfl
  | cons p t ih =>
    by_cases h : p.1 = k
    · simpa [removeKeyList, h] using ih
    · simpa [removeKeyList, lookupList, h] using ih

theorem lookupList_removeKeyList_other {α : Type} (k k' : String) (h : k' ≠ k)
    (m : List (String × α)) :
    lookupList (removeKeyList k m) k' = lookupList m k' := by
  induction m with
  | nil => rfl
  | cons p t ih =>
    show lookupList (if p.1 = k then removeKeyList k t else p :: removeKeyList k t) k' =
      lookupList (p :: t) k'
    by_cases hp : p.1 = k
    · rw [if_pos hp, ih]
      have hpk' : ¬ p.1 = k' := by
        rw [hp]
        exact fun hc => h hc.symm
      show lookupList t k' = if p.1 = k' then some p.2 else lookupList t k'
      rw [if_neg hpk']
    · rw [if_neg hp]
      show (if p.1 = k' then some p.2 else lookupList (removeKeyList k t) k') =
        (if p.1 = k' then some p.2 else lookupList t k')
      rw [ih]

theorem mem_removeKeyList {α : Type} (k : String) (m : List (String × α))
    (p : String × α) (h : p ∈ removeKeyList k m) : p ∈ m := by
  induction m with
  | nil => simp [removeKeyList] at h
  | cons q t ih =>
    by_cases hq : q.1 = k
    · simp only [removeKeyList, hq, if_pos, reduceIte] at h
      exact List.mem_cons_of_mem q (ih h)
    · simp only [removeKeyList, hq, reduceIte, List.mem_cons] at h
      rcases h with h | h
      · exact h ▸ List.mem_cons_self q t
      · exact List.mem_cons_of_mem q (ih h)

theorem lookupList_setKey_self (env : List (String × String)) (k v : String) :
    lookupList (setKey env k v) k = some v := by
  rw [setKey, lookupList_append, lookupList_removeKeyList_self]
  simp [lookupList]

theorem lookupList_setKey_other (env : List (String × String)) (k v k' : String)
    (h : k' ≠ k) : lookupList (setKey env k v) k' = lookupList env k' := by
  rw [setKey, lookupList_append, lookupList_removeKeyList_other k k' h]
  cases hres : lookupList env k' with
  | none =>
    have hkk : ¬ k = k' := fun hc => h hc.symm
    simp [lookupList, hkk]
  | some v' => simp

theorem mem_setKey (env : List (String × String)) (k v : String)
    (p : String × String) (h : p ∈ setKey env k v) : p = (k, v) ∨ p ∈ env := by
  rw [setKey] at h
  rcases List.mem_append.mp h with h | h
  · exact Or.inr (mem_removeKeyList k env p h)
  · exact Or.inl (by simpa using h)

theorem envCopyEntry_fst (parent : String → Option String) (key : String)
    (p : String × String) (h : envCopyEntry parent key = some p) : p.1 = key := by
  unfold envCopyEntry at h
  cases hpk : parent key with
  | none => simp [hpk] at h
  | some v =>
    rw [hpk] at h
    by_cases hv : v != ""
    · simp only [hv, reduceIte, Option.some.injEq] at h
      simp [← h]
    · simp [hv] at h

theorem lookup_envCopy_not_mem (parent : String → Option String) (key : String) :
    ∀ l : List String, key ∉ l →
      lookupList (l.filterMap (envCopyEntry parent)) key = none := by
  intro l
  induction l with
  | nil => intro _; rfl
  | cons a t ih =>
    intro h
    have hka : ¬ a = key := fun hc => h (hc ▸ List.mem_cons_self a t)
    have hkt : key ∉ t := fun hc => h (List.mem_cons_of_mem a hc)
    cases he : envCopyEntry parent a with
    | none => simpa [List.filterMap_cons, he] using ih hkt
    | some p =>
      have hp1 : p.1 = a := envCopyEntry_fst parent a p he
      simpa [List.filterMap_cons, he, lookupList, hp1, hka] using ih hkt

theorem lookup_envCopy_mem (parent : String → Option String) (key : String) :
    ∀ l : List String, key ∈ l →
      lookupList (l.filterMap (envCopyEntry parent)) key = truthyValue parent key := by
  intro l
  induction l with
  | nil => intro h; simp at h
  | cons a t ih =>
    intro h
    by_cases hak : a = key
    · subst hak
      cases he : envCopyEntry parent a with
      | none =>
        have htv : truthyValue parent a = none := by
          unfold envCopyEntry at he
          unfold truthyValue
          cases hpk : parent a with
          | none => rfl
          | some v =>
            rw [hpk] at he
            by_cases hv : v != ""
            · simp [hv] at he
            · simp [hv]
        rw [List.filterMap_cons, he, htv]
        by_cases hmem : a ∈ t
        · rw [ih hmem, htv]
        · exact lookup_envCopy_not_mem parent a t hmem
      | some p =>
        have hp1 : p.1 = a := envCopyEntry_fst parent a p he
        have htv : truthyValue parent a = some p.2 := by
          unfold envCopyEntry at he
          unfold truthyValue
          cases hpk : parent a with
          | none => simp [hpk] at he
          | some v =>
            rw [hpk] at he
            by_cases hv : v != ""
            · simp only [hv, reduceIte, Option.some.injEq] at he
              simp [hv, ← he]
            · simp [hv] at he
        rw [List.filterMap_cons, he, htv]
        simp [lookupList, hp1]
    · have hmem : key ∈ t := by
        rcases List.mem_cons.mp h with hc | hc
        · exact absurd hc.symm hak
        · exact hc
      cases he : envCopyEntry parent a with
      | none => simpa [List.filterMap_cons, he] using ih hmem
      | some p =>
        have hp1 : p.1 = a := envCopyEntry_fst parent a p he
        simpa [List.filterMap_cons, he, lookupList, hp1, hak] using ih hmem

/-- C6: the PTY child environment built by `getSanitizedEnv` never contains
a key outside the allow-list (the three forced keys are themselves listed);
`TERM` is always `xterm-256color` and `COLORTERM` always `truecolor`;
`LANG` is copied from the parent when truthy and defaulted to `en_US.UTF-8`
otherwise; and any two parent environments that agree on the allow-listed
variables produce identical child environments. -/
theorem getSanitizedEnv_spec :
    (∀ (parent : String → Option String) (p : String × String),
      p ∈ getSanitizedEnv parent → p.1 ∈ ENV_ALLOWLIST) ∧
    (∀ parent : String → Option String,
      lookupList (getSanitizedEnv parent) "TERM" = some "xterm-256color" ∧
      lookupList (getSanitizedEnv parent) "COLORTERM" = some "truecolor" ∧
      (envTruthy (parent "LANG") = true →
        lookupList (getSanitizedEnv parent) "LANG" = parent "LANG") ∧
      (envTruthy (parent "LANG") = false →
        lookupList (getSanitizedEnv parent) "LANG" = some "en_US.UTF-8")) ∧
    (∀ p1 p2 : String → Option String,
      (∀ k ∈ ENV_ALLOWLIST, p1 k = p2 k) →
      getSanitizedEnv p1 = getSanitizedEnv p2) := by
  have hlang : ∀ parent : String → Option String,
      lookupList (ENV_ALLOWLIST.filterMap (envCopyEntry parent)) "LANG" =
        truthyValue parent "LANG" :=
    fun parent => lookup_envCopy_mem parent "LANG" ENV_ALLOWLIST (by decide)
  refine ⟨?_, ?_, ?_⟩
  · intro parent p hp
    rcases mem_setKey _ _ _ _ hp with h | h
    · rw [h]
      show "LANG" ∈ ENV_ALLOWLIST
      decide
    rcases mem_setKey _ _ _ _ h with h | h
    · rw [h]
      show "COLORTERM" ∈ ENV_ALLOWLIST
      decide
    rcases mem_setKey _ _ _ _ h with h | h
    · rw [h]
      show "TERM" ∈ ENV_ALLOWLIST
      decide
    · rcases List.mem_filterMap.mp h with ⟨key, hkey, hout⟩
      rw [envCopyEntry_fst parent key p hout]
      exact hkey
  · intro parent
    refine ⟨?_, ?_, ?_, ?_⟩
    · rw [getSanitizedEnv]
      rw [lookupList_setKey_other _ _ _ _ (by decide)]
      rw [lookupList_setKey_other _ _ _ _ (by decide)]
      exact lookupList_setKey_self _ _ _
    · rw [getSanitizedEnv]
      rw [lookupList_setKey_other _ _ _ _ (by decide)]
      exact lookupList_setKey_self _ _ _
    · intro htruthy
      rw [getSanitizedEnv]
      rw [lookupList_setKey_self]
      rw [lookupList_setKey_other _ _ _ _ (by decide),
        lookupList_setKey_other _ _ _ _ (by decide)]
      rw [hlang parent]
      unfold truthyValue
      cases hpl : parent "LANG" with
      | none => simp [envTruthy, hpl] at htruthy
      | some v =>
        have hv : (v != "") = true := by simpa [envTruthy, hpl] using htruthy
        simp [hv]
    · intro hfalsy
      rw [getSanitizedEnv]
      rw [lookupList_setKey_self]
      rw [lookupList_setKey_other _ _ _ _ (by decide),
        lookupList_setKey_other _ _ _ _ (by decide)]
      rw [hlang parent]
      unfold truthyValue
      cases hpl : parent "LANG" with
      | none => simp
      | some v =>
        have hv : (v != "") = false := by simpa [envTruthy, hpl] using hfalsy
        simp [hv]
  · intro p1 p2 hagree
    have hbase : ENV_ALLOWLIST.filterMap (envCopyEntry p1) =
        ENV_ALLOWLIST.filterMap (envCopyEntry p2) := by
      have hgen : ∀ l : List String, (∀ k ∈ l, p1 k = p2 k) →
          l.filterMap (envCopyEntry p1) = l.filterMap (envCopyEntry p2) := by
        intro l
        induction l with
        | nil => intro _; rfl
        | cons a t ih =>
          intro h
          have ha := h a (List.mem_cons_self a t)
          rw [List.filterMap_cons, List.filterMap_cons, envCopyEntry, envCopyEntry, ha,
            ih (fun k hk => h k (List.mem_cons_of_mem a hk))]
      exact hgen ENV_ALLOWLIST hagree
    rw [getSanitizedEnv, getSanitizedEnv, hbase]

/-- A parent environment holding one allow-listed variable and one secret. -/
def parentWithSecret : String → Option String := fun k =>
  if k = "PATH" then some "/usr/bin"
  else if k = "SECRET_TOKEN" then some "hunter2" else none

/-- The same parent without the secret. -/
def parentNoSecret : String → Option String := fun k =>
  if k = "PATH" then some "/usr/bin" else none

/-- Witness: two parents that differ only in a non-allow-listed variable
produce identical sanitized child environments. -/
theorem getSanitizedEnv_spec_witness :
    getSanitizedEnv parentWithSecret = getSanitizedEnv parentNoSecret :=
  getSanitizedEnv_spec.2.2 parentWithSecret parentNoSecret (by decide)

/-! ### Supervisor PTY session cleanup (`electron/main.ts`) -/

/-- The in-memory `PtySession` handle stored in the supervisor map. -/
structure PtySession where
  ptyId : String
  workspaceId : String
  workspacePath : String
  cliType : CLIType
  sessionId : String
  oneShotCommand : Option String
deriving DecidableEq, Repr

/-- The supervisor's mutable maps: `ptySessions`, `idleNotifTimers` (ids
with an armed idle-notification timer), `sessionHadActivity`, and the
continuation engine's `states` map. -/
structure SupState where
  ptySessions : List (String × PtySession)
  idleNotifTimers : List String
  sessionHadActivity : List String
  contStates : List (String × CState)
deriving DecidableEq, Repr

/-- External effects of `cleanupPtySession`, in program order: the map
removal, the `pty.kill()` attempt (wrapped in try/catch, so it never
throws), the `agent_sessions` row update, the `continuation_state` row
delete, the idle-timer cancellation, and the engine's `onCancelled` hook. -/
inductive SupAction
  | removeHandle (ptyId : String)
  | killChild (ptyId sessionId : String)
  | endAgentSessionRow (sessionId : String)
  | deleteContinuationRow (ptyId : String)
  | clearIdleTimer (ptyId : String)
  | contCancelledHook (ptyId : String)
deriving DecidableEq, Repr

/-- Remove an id from a set-like list (`Map.delete` / `Set.delete`). -/
def removeId (k : String) (l : List String) : List String :=
  l.filter (fun x => x != k)

/-- `stopContinuation(ptyId)` acting on the engine's whole `states` map:
delete the entry and fire `hooks.onCancelled` when it existed. -/
def stopContinuationMap (ptyId : String) (m : List (String × CState)) :
    List (String × CState) × List SupAction :=
  match lookupList m ptyId with
  | none => (m, [])
  | some _ => (removeKeyList ptyId m, [SupAction.contCancelledHook ptyId])

/-- `cleanupPtySession(ptyId)`: if the handle is gone, do nothing (the
idempotent guard); otherwise remove it from the map FIRST, then kill the
child, end the agent-session row, delete the continuation checkpoint, clear
the idle timer and activity flag, and stop the continuation. -/
def cleanupPtySession (ptyId : String) (st : SupState) : SupState × List SupAction :=
  match lookupList st.ptySessions ptyId with
  | none => (st, [])
  | some sess =>
    ({ ptySessions := removeKeyList ptyId st.ptySessions,
       idleNotifTimers := removeId ptyId st.idleNotifTimers,
       sessionHadActivity := removeId ptyId st.sessionHadActivity,
       contStates := (stopContinuationMap ptyId st.contStates).1 },
     [SupAction.removeHandle ptyId, SupAction.killChild ptyId sess.sessionId,
      SupAction.endAgentSessionRow sess.sessionId,
      SupAction.deleteContinuationRow ptyId,
      SupAction.clearIdleTimer ptyId] ++ (stopContinuationMap ptyId st.contStates).2)

/-- C7: `shell.kill` (which validates the id and calls `cleanupPtySession`)
is idempotent.  A call for an unknown `ptyId` is a no-op; the first call
removes the handle (the `removeHandle` effect precedes the `killChild`
attempt in the emitted action order), ends the agent-session row, deletes
the continuation checkpoint, clears the timers, and cancels the
continuation state; a second call for the same id is a no-op; and a call
never touches another id's handle or continuation state and never kills
another session's process.  The model is a total function, so no call
throws. -/
theorem cleanup_pty_session_spec :
    (∀ ptyId st, lookupList st.ptySessions ptyId = none →
      cleanupPtySession ptyId st = (st, [])) ∧
    (∀ ptyId st,
      cleanupPtySession ptyId (cleanupPtySession ptyId st).1 =
        ((cleanupPtySession ptyId st).1, [])) ∧
    (∀ ptyId st sess, lookupList st.ptySessions ptyId = some sess →
      (cleanupPtySession ptyId st).2 =
        SupAction.removeHandle ptyId :: SupAction.killChild ptyId sess.sessionId ::
        SupAction.endAgentSessionRow sess.sessionId ::
        SupAction.deleteContinuationRow ptyId ::
        SupAction.clearIdleTimer ptyId :: (stopContinuationMap ptyId st.contStates).2 ∧
      lookupList (cleanupPtySession ptyId st).1.ptySessions ptyId = none ∧
      lookupList (cleanupPtySession ptyId st).1.contStates ptyId = none) ∧
    (∀ ptyId (m : List (String × CState)),
      (stopContinuationMap ptyId m).2 = [] ∨
      (stopContinuationMap ptyId m).2 = [SupAction.contCancelledHook ptyId]) ∧
    (∀ ptyId other st, other ≠ ptyId →
      lookupList (cleanupPtySession ptyId st).1.ptySessions other =
        lookupList st.ptySessions other ∧
      lookupList (cleanupPtySession ptyId st).1.contStates other =
        lookupList st.contStates other ∧
      ∀ sid, SupAction.killChild other sid ∉ (cleanupPtySession ptyId st).2) := by
  have hcont_none : ∀ ptyId (m : List (String × CState)),
      lookupList (stopContinuationMap ptyId m).1 ptyId = none := by
    intro ptyId m
    cases hm : lookupList m ptyId with
    | none =>
      rw [show (stopContinuationMap ptyId m).1 = m by simp [stopContinuationMap, hm]]
      exact hm
    | some c => simp [stopContinuationMap, hm, lookupList_removeKeyList_self]
  have hcont_other : ∀ ptyId other (m : List (String × CState)), other ≠ ptyId →
      lookupList (stopContinuationMap ptyId m).1 other = lookupList m other := by
    intro ptyId other m h
    cases hm : lookupList m ptyId with
    | none => simp [stopContinuationMap, hm]
    | some c => simp [stopContinuationMap, hm, lookupList_removeKeyList_other ptyId other h]
  refine ⟨?_, ?_, ?_, ?_, ?_⟩
  · intro ptyId st h
    simp [cleanupPtySession, h]
  · intro ptyId st
    cases h : lookupList st.ptySessions ptyId with
    | none => simp [cleanupPtySession, h]
    | some sess =>
      simp [cleanupPtySession, h, lookupList_removeKeyList_self]
  · intro ptyId st sess h
    refine ⟨by simp [cleanupPtySession, h], ?_, ?_⟩
    · simp [cleanupPtySession, h, lookupList_removeKeyList_self]
    · simp [cleanupPtySession, h, hcont_none]
  · intro ptyId m
    cases hm : lookupList m ptyId with
    | none => exact Or.inl (by simp [stopContinuationMap, hm])
    | some c => exact Or.inr (by simp [stopContinuationMap, hm])
  · intro ptyId other st h
    cases hl : lookupList st.ptySessions ptyId with
    | none => simp [cleanupPtySession, hl]
    | some sess =>
      refine ⟨?_, ?_, ?_⟩
      · simp [cleanupPtySession, hl, lookupList_removeKeyList_other ptyId other h]
      · simp [cleanupPtySession, hl, hcont_other ptyId other st.contStates h]
      · intro sid
        simp only [cleanupPtySession, hl, List.mem_append, List.mem_cons,
          List.not_mem_nil, or_false]
        intro hmem
        rcases hmem with hmem | hmem
        · rcases hmem with hc | hc | hc | hc | hc <;> simp_all
        · cases hc : lookupList st.contStates ptyId <;>
            simp [stopContinuationMap, hc] at hmem

def ptySessionEx : PtySession where
  ptyId := "pty_1"
  workspaceId := "ws_1"
  workspacePath := "/tmp/ws"
  cliType := .claude
  sessionId := "sess_1"
  oneShotCommand := none

def ptySessionEx2 : PtySession where
  ptyId := "pty_2"
  workspaceId := "ws_1"
  workspacePath := "/tmp/ws"
  cliType := .gemini
  sessionId := "sess_2"
  oneShotCommand := none

def supStateEx : SupState where
  ptySessions := [("pty_1", ptySessionEx), ("pty_2", ptySessionEx2)]
  idleNotifTimers := ["pty_1"]
  sessionHadActivity := ["pty_1", "pty_2"]
  contStates := [("pty_1", cstateEx)]

/-- Witness: the live-handle conjunct of C7 applied at a concrete
supervisor state with two sessions. -/
theorem cleanup_pty_session_spec_witness :
    (cleanupPtySession "pty_1" supStateEx).2 =
      SupAction.removeHandle "pty_1" ::
      SupAction.killChild "pty_1" ptySessionEx.sessionId ::
      SupAction.endAgentSessionRow ptySessionEx.sessionId ::
      SupAction.deleteContinuationRow "pty_1" ::
      SupAction.clearIdleTimer "pty_1" ::
        (stopContinuationMap "pty_1" supStateEx.contStates).2 ∧
    lookupList (cleanupPtySession "pty_1" supStateEx).1.ptySessions "pty_1" = none ∧
    lookupList (cleanupPtySession "pty_1" supStateEx).1.contStates "pty_1" = none :=
  cleanup_pty_session_spec.2.2.1 "pty_1" supStateEx ptySessionEx (by decide)

/-! ### Ensemble synthesis (`electron/main.ts`, `ensemble:synthesis`) -/

/-- Renderer events of the synthesis orchestrator. -/
inductive EnsembleEvent
  | progress (jobId workspaceId goal : String) (completed total : Nat)
  | doneEv (jobId workspaceId goal sessionId : String) (total : Nat)
deriving DecidableEq, Repr

def isDoneEvent : EnsembleEvent → Bool
  | .doneEv _ _ _ _ _ => true
  | _ => false

/-- The `completed` values carried by the `progress` events, in order. -/
def progressCompleted (evs : List EnsembleEvent) : List Nat :=
  evs.filterMap (fun e => match e with | .progress _ _ _ c _ => some c | _ => none)

/-- One result slot: `=== Claude i/n ===\n<text>`. -/
def mkRunResult (index count : Nat) (text : String) : String :=
  "=== Claude " ++ toString (index + 1) ++ "/" ++ toString count ++ " ===\n" ++ text

/-- Mutable state shared by the `count` parallel runs: the `results` array
and the `completed` counter. -/
structure SynthRunState where
  results : List (Option String)
  completed : Nat
deriving DecidableEq, Repr

/-- The completion continuation of run `index`: store its slot, increment
`completed`, and emit `ensemble:progress` with the new counter.  The
single-threaded event loop executes each continuation atomically. -/
def finishRun (jobId workspaceId goal : String) (total : Nat)
    (texts : Nat → String) (st : SynthRunState) (index : Nat) :
    SynthRunState × EnsembleEvent :=
  let st' : SynthRunState :=
    { results := st.results.set index (some (mkRunResult index total (texts index))),
      completed := st.completed + 1 }
  (st', .progress jobId workspaceId goal st'.completed total)

/-- All run completions, serialized in the order `order` chosen by the
scheduler (`Promise.all` only resolves after every run finished). -/
def runFinishes (jobId workspaceId goal : String) (total : Nat)
    (texts : Nat → String) : SynthRunState → List Nat → SynthRunState × List EnsembleEvent
  | st, [] => (st, [])
  | st, i :: rest =>
    ((runFinishes jobId workspaceId goal total texts
        (finishRun jobId workspaceId goal total texts st i).1 rest).1,
     (finishRun jobId workspaceId goal total texts st i).2 ::
      (runFinishes jobId workspaceId goal total texts
        (finishRun jobId workspaceId goal total texts st i).1 rest).2)

/-- Modelled from the spec: `crypto.randomUUID()` returns the canonical
36-character 8-4-4-4-12 lowercase-hex UUID string; the generator itself is
a platform API outside the repository, modelled here from an arbitrary
seed. -/
def hexDigitChar (n : Nat) : Char :=
  if n < 10 then Char.ofNat (48 + n) else Char.ofNat (87 + n)

def hex32 (seed : Nat) : List Char :=
  (List.range 32).map (fun i => hexDigitChar (seed / 16 ^ i % 16))

def uuidFromSeed (seed : Nat) : String :=
  let d := hex32 seed
  String.mk (d.take 8 ++ '-' :: (d.drop 8).take 4 ++ '-' :: (d.drop 12).take 4 ++
    '-' :: (d.drop 16).take 4 ++ '-' :: d.drop 20)

theorem uuidFromSeed_length (seed : Nat) : (uuidFromSeed seed).length = 36 := by
  have hd : (hex32 seed).length = 32 := by simp [hex32]
  simp only [uuidFromSeed, string_length_data]
  simp [List.length_append, List.length_take, List.length_drop, hd]

/-- The full `ensemble:synthesis` renderer-event trace of one job: the
initial `progress(0, total)`, one `progress` per run completion, and after
`Promise.all` and the final hidden synthesis run, a single `ensemble:done`
carrying the pre-chosen fresh UUID. -/
def ensembleSynthesisEvents (jobId workspaceId goal : String) (count : Nat)
    (texts : Nat → String) (sessionSeed : Nat) (order : List Nat) :
    List EnsembleEvent :=
  EnsembleEvent.progress jobId workspaceId goal 0 count ::
    (runFinishes jobId workspaceId goal count texts
      { results := List.replicate count none, completed := 0 } order).2 ++
    [EnsembleEvent.doneEv jobId workspaceId goal (uuidFromSeed sessionSeed) count]

theorem runFinishes_events (jobId workspaceId goal : String) (total : Nat)
    (texts : Nat → String) (order : List Nat) :
    ∀ st : SynthRunState,
      (runFinishes jobId workspaceId goal total texts st order).2 =
        (List.range' (st.completed + 1) order.length).map
          (fun c => EnsembleEvent.progress jobId workspaceId goal c total) := by
  induction order with
  | nil => intro st; rfl
  | cons i rest ih =>
    intro st
    simp only [runFinishes, finishRun]
    rw [ih]
    rw [List.length_cons, List.range'_succ]
    simp

theorem progressCompleted_map (jobId workspaceId goal : String) (count : Nat)
    (l : List Nat) :
    progressCompleted
      (l.map (fun c => EnsembleEvent.progress jobId workspaceId goal c count)) = l := by
  induction l with
  | nil => rfl
  | cons c t ih =>
    simp only [List.map_cons, progressCompleted, List.filterMap_cons] at ih ⊢
    rw [ih]

/-- The C8 contract over a job's event list. -/
def EnsembleEventsSpec (jobId workspaceId goal : String) (count : Nat)
    (sessionSeed : Nat) (evs : List EnsembleEvent) : Prop :=
  progressCompleted evs = List.range (count + 1) ∧
  List.Chain' (fun a b => a ≤ b) (progressCompleted evs) ∧
  (∀ c ∈ progressCompleted evs, c ≤ count) ∧
  (progressCompleted evs).head? = some 0 ∧
  (progressCompleted evs).getLast? = some count ∧
  (evs.filter isDoneEvent).length = 1 ∧
  (∃ pre, evs = pre ++
      [EnsembleEvent.doneEv jobId workspaceId goal (uuidFromSeed sessionSeed) count] ∧
    ∀ e ∈ pre, isDoneEvent e = false) ∧
  (uuidFromSeed sessionSeed).length = 36

/-- C8: for every synthesis job with `count` runs finishing in an arbitrary
serialization order, the `ensemble:progress` events carry non-decreasing
`completed` values bounded by `total`, starting at 0 and reaching `count`
(indeed exactly `0, 1, …, count`); exactly one `ensemble:done` event is
emitted, strictly after the final `progress`; and its `sessionId` is the
non-empty (36-character) freshly generated UUID. -/
theorem ensemble_synthesis_events_spec (jobId workspaceId goal : String)
    (count : Nat) (texts : Nat → String) (sessionSeed : Nat) (order : List Nat)
    (horder : order.length = count) :
    EnsembleEventsSpec jobId workspaceId goal count sessionSeed
      (ensembleSynthesisEvents jobId workspaceId goal count texts sessionSeed order) := by
  have hmid : (runFinishes jobId workspaceId goal count texts
      { results := List.replicate count none, completed := 0 } order).2 =
      (List.range' 1 count).map
        (fun c => EnsembleEvent.progress jobId workspaceId goal c count) := by
    rw [runFinishes_events]
    rw [horder]
  have hevs : ensembleSynthesisEvents jobId workspaceId goal count texts sessionSeed
      order =
      EnsembleEvent.progress jobId workspaceId goal 0 count ::
        (List.range' 1 count).map
          (fun c => EnsembleEvent.progress jobId workspaceId goal c count) ++
        [EnsembleEvent.doneEv jobId workspaceId goal (uuidFromSeed sessionSeed) count] := by
    rw [ensembleSynthesisEvents, hmid]
  have hvals : progressCompleted (ensembleSynthesisEvents jobId workspaceId goal count
      texts sessionSeed order) = List.range (count + 1) := by
    rw [hevs]
    have h2 := progressCompleted_map jobId workspaceId goal count (List.range' 1 count)
    simp only [progressCompleted, List.filterMap_cons, List.filterMap_append] at h2 ⊢
    rw [h2, List.range_eq_range', List.range'_succ]
    simp
  refine ⟨hvals, ?_, ?_, ?_, ?_, ?_, ?_, uuidFromSeed_length sessionSeed⟩
  · rw [hvals]
    rw [List.chain'_range_succ]
    intro m _
    omega
  · rw [hvals]
    intro c hc
    have := List.mem_range.mp hc
    omega
  · rw [hvals, List.range_eq_range', List.range'_succ]
    rfl
  · rw [hvals, List.range_succ]
    exact List.getLast?_concat _
  · rw [hevs]
    simp [isDoneEvent, List.filter_append, List.filter_map, Function.comp]
  · refine ⟨EnsembleEvent.progress jobId workspaceId goal 0 count ::
      (List.range' 1 count).map
        (fun c => EnsembleEvent.progress jobId workspaceId goal c count), ?_, ?_⟩
    · rw [hevs]
    · intro e he
      rcases List.mem_cons.mp he with he | he
      · rw [he]
        rfl
      · rcases List.mem_map.mp he with ⟨c, _, hc⟩
        rw [← hc]
        rfl

/-- Witness: the C8 theorem at a concrete two-run job finishing out of
order. -/
theorem ensemble_synthesis_events_spec_witness :
    EnsembleEventsSpec "synth_1" "ws_1" "improve the readme" 2 7
      (ensembleSynthesisEvents "synth_1" "ws_1" "improve the readme" 2
        (fun _ => "answer") 7 [1, 0]) :=
  ensemble_synthesis_events_spec "synth_1" "ws_1" "improve the readme" 2
    (fun _ => "answer") 7 [1, 0] rfl

/-! ### Hidden one-shot Claude runs (`electron/main.ts`, `runHiddenClaudeOnce`) -/

/-- The options record of `runHiddenClaudeOnce`. -/
structure HiddenRunOptions where
  sessionId : Option String := none
  isolatedHomeDir : Option String := none
  noSessionPersistence : Bool := false
deriving DecidableEq, Repr

/-- What `spawnChild` was asked to do: command, argv, the stdin payload
written by `child.stdin.end(goal)` (which also closes stdin), and the
watchdog duration. -/
structure SpawnRecord where
  cmd : String
  args : List String
  stdinPayload : String
  stdinClosed : Bool
  timeoutMs : Nat
deriving DecidableEq, Repr

/-- How the child finished: the 10-minute watchdog fired; `spawnChild`
itself threw; the child emitted `error`; or it closed with collected
stdout+stderr, an exit code, and an optional signal (`some s` models a
truthy signal value). -/
inductive ChildOutcome
  | timedOut
  | spawnError (msg : String)
  | childError (msg : String)
  | closed (output : String) (code : Option Int) (signal : Option String)
deriving DecidableEq, Repr

/-- The argv built for the hidden run: `['-p']`, plus
`'--no-session-persistence'` and/or `'--session-id', <id>`.  The goal is
not a parameter: it never reaches the argv. -/
def hiddenClaudeArgs (opts : HiddenRunOptions) : List String :=
  ["-p"] ++
    (if opts.noSessionPersistence then ["--no-session-persistence"] else []) ++
    (match opts.sessionId with
     | some sid => ["--session-id", sid]
     | none => [])

def hiddenSpawnRecord (goal : String) (opts : HiddenRunOptions) : SpawnRecord :=
  { cmd := "claude", args := hiddenClaudeArgs opts, stdinPayload := goal,
    stdinClosed := true, timeoutMs := 600000 }

/-- The promise value and observable effects of one hidden run. -/
structure HiddenRunResult where
  spawned : Option SpawnRecord
  killedByTimeout : Bool
  result : String
deriving DecidableEq, Repr

/-- `runHiddenClaudeOnce(goal, cwd, options)`: spawn `claude` with the flag
argv, pipe the full goal into stdin and close it, and resolve with the
collected output — `"(timed out)"` after the 600000 ms watchdog kills the
child, `"(runner error: …)"` on spawn/child errors, and otherwise the
sanitized output or the exit-code placeholders.  `san` stands for
`sanitizeHiddenClaudeOutput`, whose fixed line filters are irrelevant to
this claim.  The promise always resolves (the function is total), so the
surrounding synthesis job completes. -/
def runHiddenClaudeOnce (san : String → String) (goal : String)
    (opts : HiddenRunOptions) (outcome : ChildOutcome) : HiddenRunResult :=
  match outcome with
  | .spawnError msg =>
    { spawned := none, killedByTimeout := false,
      result := "(runner error: " ++ msg ++ ")" }
  | .timedOut =>
    { spawned := some (hiddenSpawnRecord goal opts), killedByTimeout := true,
      result := "(timed out)" }
  | .childError msg =>
    { spawned := some (hiddenSpawnRecord goal opts), killedByTimeout := false,
      result := "(runner error: " ++ msg ++ ")" }
  | .closed output code signal =>
    { spawned := some (hiddenSpawnRecord goal opts), killedByTimeout := false,
      result :=
        let trimmed := output.trim
        if trimmed != "" then
          let cleaned := san trimmed
          if cleaned != "" then cleaned else "(empty)"
        else
          match signal with
          | some sig => "(terminated: " ++ sig ++ ")"
          | none =>
            match code with
            | some c => if c = 0 then "(empty)" else "(exit code " ++ toString c ++ ")"
            | none => "(exit code unknown)" }

/-- C9: every hidden synthesis run passes only flags on the argv — `-p`,
optionally `--no-session-persistence`, optionally `--session-id <id>` —
and never the goal text (the argv is independent of the goal); whenever a
child was spawned, the full goal was written to its stdin which was then
closed, under a 600000 ms (10-minute) watchdog; and on timeout the child
is killed and the run resolves with the string "(timed out)", so the job
still completes with that slot value. -/
theorem run_hidden_claude_once_spec :
    (∀ (opts : HiddenRunOptions) (a : String), a ∈ hiddenClaudeArgs opts →
      a = "-p" ∨ a = "--no-session-persistence" ∨ a = "--session-id" ∨
        opts.sessionId = some a) ∧
    (∀ (san : String → String) (goal : String) (opts : HiddenRunOptions)
        (outcome : ChildOutcome),
      (∀ msg, outcome ≠ ChildOutcome.spawnError msg) →
      ∃ rec, (runHiddenClaudeOnce san goal opts outcome).spawned = some rec ∧
        rec.cmd = "claude" ∧
        rec.args = hiddenClaudeArgs opts ∧
        rec.stdinPayload = goal ∧
        rec.stdinClosed = true ∧
        rec.timeoutMs = 600000) ∧
    (∀ (san : String → String) (goal₁ goal₂ : String) (opts : HiddenRunOptions)
        (outcome : ChildOutcome),
      Option.map (fun r => r.args)
          (runHiddenClaudeOnce san goal₁ opts outcome).spawned =
        Option.map (fun r => r.args)
          (runHiddenClaudeOnce san goal₂ opts outcome).spawned) ∧
    (∀ (san : String → String) (goal : String) (opts : HiddenRunOptions),
      runHiddenClaudeOnce san goal opts ChildOutcome.timedOut =
        { spawned := some (hiddenSpawnRecord goal opts), killedByTimeout := true,
          result := "(timed out)" }) := by
  refine ⟨?_, ?_, ?_, ?_⟩
  · intro opts a ha
    unfold hiddenClaudeArgs at ha
    rcases List.mem_append.mp ha with ha | ha
    · rcases List.mem_append.mp ha with ha | ha
      · exact Or.inl (by simpa using ha)
      · by_cases hn : opts.noSessionPersistence
        · simp only [hn, reduceIte, List.mem_singleton] at ha
          exact Or.inr (Or.inl ha)
        · simp [hn] at ha
    · cases hsid : opts.sessionId with
      | none => simp [hsid] at ha
      | some sid =>
        rw [hsid] at ha
        rcases List.mem_cons.mp ha with ha | ha
        · exact Or.inr (Or.inr (Or.inl ha))
        · refine Or.inr (Or.inr (Or.inr ?_))
          have haeq : a = sid := by simpa using ha
          rw [haeq]
  · intro san goal opts outcome hns
    cases outcome with
    | spawnError msg => exact absurd rfl (hns msg)
    | timedOut => exact ⟨hiddenSpawnRecord goal opts, rfl, rfl, rfl, rfl, rfl, rfl⟩
    | childError msg => exact ⟨hiddenSpawnRecord goal opts, rfl, rfl, rfl, rfl, rfl, rfl⟩
    | closed output code signal =>
      exact ⟨hiddenSpawnRecord goal opts, rfl, rfl, rfl, rfl, rfl, rfl⟩
  · intro san goal₁ goal₂ opts outcome
    cases outcome <;> rfl
  · intro san goal opts
    rfl

/-- Witness: the spawn contract of C9 at a concrete successful run with a
session id. -/
theorem run_hidden_claude_once_spec_witness :
    ∃ rec, (runHiddenClaudeOnce (fun s => s) "summarize the repo"
        { sessionId := some "11111111-2222-3333-4444-555555555555",
          isolatedHomeDir := none, noSessionPersistence := false }
        (ChildOutcome.closed "fine" (some 0) none)).spawned = some rec ∧
      rec.cmd = "claude" ∧
      rec.args = hiddenClaudeArgs
        { sessionId := some "11111111-2222-3333-4444-555555555555",
          isolatedHomeDir := none, noSessionPersistence := false } ∧
      rec.stdinPayload = "summarize the repo" ∧
      rec.stdinClosed = true ∧
      rec.timeoutMs = 600000 :=
  run_hidden_claude_once_spec.2.1 (fun s => s) "summarize the repo"
    { sessionId := some "11111111-2222-3333-4444-555555555555",
      isolatedHomeDir := none, noSessionPersistence := false }
    (ChildOutcome.closed "fine" (some 0) none)
    (fun _ h => ChildOutcome.noConfusion h)

/-! ### Numeric clamps at the IPC boundary (`continuation:start`,
`ensemble:synthesis`) -/

/-- The `maxIterations` argument as received over IPC: `some q` models a
finite JS number with exact rational value `q`; `none` models an absent
argument, a non-number, `NaN` or `±Infinity` (all of which fail the
`typeof === 'number' && isFinite` test). -/
def clampContinuationMaxIterations (maxIterations : Option ℚ) : ℚ :=
  match maxIterations with
  | some q => if 0 < q then min q 100 else 20
  | none => 20

/-- The synthesis `n` argument: `Math.max(1, Math.min(12, Math.floor(n)))`
with default 5. -/
def clampEnsembleCount (n : Option ℚ) : Int :=
  match n with
  | some q => max 1 (min 12 ⌊q⌋)
  | none => 5

/-- Counterexample to C10 as stated: the continuation clamp has no floor
and no lower clamp for positive inputs, so the numeric input 0.5 yields an
effective `maxIterations` of 0.5, which is NOT in the range [1,100]. -/
theorem clamp_max_iterations_counterexample :
    clampContinuationMaxIterations (some (1 / 2)) = 1 / 2 ∧
    ¬ 1 ≤ clampContinuationMaxIterations (some (1 / 2)) := by
  have h1 : clampContinuationMaxIterations (some (1 / 2)) = 1 / 2 := by
    show (if (0 : ℚ) < 1 / 2 then min (1 / 2 : ℚ) 100 else 20) = 1 / 2
    rw [if_pos (by norm_num : (0 : ℚ) < 1 / 2)]
    exact min_eq_left (by norm_num)
  refine ⟨h1, ?_⟩
  rw [h1]
  norm_num

/-- C10 (amended): at the command boundary, the effective continuation
`maxIterations` is `min(input, 100)` for positive inputs (hence within
[1,100] whenever the input is at least 1) and defaults to 20 for absent,
non-finite or non-positive inputs — fractional inputs strictly between 0
and 1 pass through below the claimed lower bound; the effective synthesis
run count is floored and clamped into [1,12] for every numeric input, with
default 5 when absent. -/
theorem boundary_clamps_spec :
    (∀ q : ℚ, 0 < q → clampContinuationMaxIterations (some q) = min q 100) ∧
    (∀ q : ℚ, 1 ≤ q →
      1 ≤ clampContinuationMaxIterations (some q) ∧
      clampContinuationMaxIterations (some q) ≤ 100) ∧
    (∀ q : ℚ, ¬ 0 < q → clampContinuationMaxIterations (some q) = 20) ∧
    clampContinuationMaxIterations none = 20 ∧
    (∀ n : Option ℚ, 1 ≤ clampEnsembleCount n ∧ clampEnsembleCount n ≤ 12) ∧
    clampEnsembleCount none = 5 := by
  refine ⟨?_, ?_, ?_, rfl, ?_, rfl⟩
  · intro q h
    show (if 0 < q then min q 100 else 20) = min q 100
    rw [if_pos h]
  · intro q h
    have h0 : (0 : ℚ) < q := lt_of_lt_of_le one_pos h
    have heq : clampContinuationMaxIterations (some q) = min q 100 := by
      show (if 0 < q then min q 100 else 20) = min q 100
      rw [if_pos h0]
    rw [heq]
    exact ⟨le_min h (by norm_num), min_le_right q 100⟩
  · intro q h
    show (if 0 < q then min q 100 else 20) = 20
    rw [if_neg h]
  · intro n
    cases n with
    | none =>
      constructor
      · norm_num [clampEnsembleCount]
      · norm_num [clampEnsembleCount]
    | some q =>
      show 1 ≤ max 1 (min 12 ⌊q⌋) ∧ max 1 (min 12 ⌊q⌋) ≤ 12
      exact ⟨le_max_left 1 _, max_le (by norm_num) (min_le_left 12 _)⟩

/-- Witness: the clamp bounds of C10 (amended) at the integer input 5 for
the continuation and at 7/2 for the synthesis count. -/
theorem boundary_clamps_spec_witness :
    (1 ≤ clampContinuationMaxIterations (some 5) ∧
      clampContinuationMaxIterations (some 5) ≤ 100) ∧
    (1 ≤ clampEnsembleCount (some (7 / 2)) ∧ clampEnsembleCount (some (7 / 2)) ≤ 12) :=
  ⟨boundary_clamps_spec.2.1 5 (by norm_num),
   boundary_clamps_spec.2.2.2.2.1 (some (7 / 2))⟩

end Forge
